import Mathlib

-- Shallow embedding of the GitHub activity viewer (src/src/components/input.tsx).
-- The aggregation core is `fetchCommits`: for each of the first 25 repositories
-- it pages through commit listings (100 per page, at most 5 pages), counting
-- each commit into the monthly bucket of its authored month.  The setup phase
-- is `fetchReposAndYears`.  The render-time "Most active month" reduce is
-- modelled by `mostActiveEntry`.

namespace GitHubViewer

-- Data model (interfaces Repo and CommitData from the source).

structure Repo where
  id : Nat
  name : String
  html_url : String
deriving DecidableEq, Repr

structure CommitData where
  month : String
  commits : Nat
deriving DecidableEq, Repr

-- A commit as the aggregation consumes it: only `commit.commit.author.date`'s
-- month (JS `Date.getMonth()`, always in 0..11 for a valid date) is used.
structure Commit where
  authoredMonth : Fin 12
deriving DecidableEq, Repr

-- A calendar instant, standing for a JS `Date`.  `key` is a mixed-radix
-- encoding that is strictly monotone in lexicographic field order for
-- well-formed instants, so `Date` comparison becomes `key` comparison.
structure DateTime where
  year : Nat
  month : Nat
  day : Nat
  hour : Nat
  minute : Nat
  second : Nat
deriving DecidableEq, Repr

def DateTime.key (d : DateTime) : Nat :=
  ((((d.year * 12 + d.month) * 32 + d.day) * 24 + d.hour) * 60 + d.minute) * 60 + d.second

def DateTime.wf (d : DateTime) : Prop :=
  d.month < 12 ∧ d.day < 32 ∧ d.hour < 24 ∧ d.minute < 60 ∧ d.second < 60

instance (d : DateTime) : Decidable d.wf := by
  unfold DateTime.wf
  infer_instance

-- Outcome of one commit-page request: a 2xx response with its JSON array,
-- a non-2xx response with its status, or a thrown exception (network failure
-- or a failure while reading the body).
inductive PageResult where
  | ok (commits : List Commit)
  | err (status : Nat)
  | exn
deriving DecidableEq, Repr

-- Month labels produced by `new Date(year, i).toLocaleString("default",
-- \x7bmonth: "short"\x7d)` in the default English locale (year-independent).
def monthName : Nat → String
  | 0 => "Jan"
  | 1 => "Feb"
  | 2 => "Mar"
  | 3 => "Apr"
  | 4 => "May"
  | 5 => "Jun"
  | 6 => "Jul"
  | 7 => "Aug"
  | 8 => "Sep"
  | 9 => "Oct"
  | 10 => "Nov"
  | 11 => "Dec"
  | _ => ""

-- `monthlyCommits`: `Array.from(\x7blength: 12\x7d, (_, i) => (\x7bmonth: ..., commits: 0\x7d))`.
def initialMonthly : List CommitData :=
  (List.range 12).map fun i => { month := monthName i, commits := 0 }

-- `monthlyCommits[monthIndex].commits += 1` (out-of-range index is a no-op;
-- the program only uses indices 0..11 against a 12-element array).
def bumpMonth : List CommitData → Nat → List CommitData
  | [], _ => []
  | d :: ds, 0 => { d with commits := d.commits + 1 } :: ds
  | d :: ds, j + 1 => d :: bumpMonth ds j

-- `commits.forEach(...)` over one returned page.
def addPage (counts : List CommitData) (commits : List Commit) : List CommitData :=
  commits.foldl (fun cs c => bumpMonth cs c.authoredMonth.val) counts

def warnMsg (name : String) (status : Nat) : String :=
  "Error fetching commits for " ++ name ++ ": " ++ toString status

def exnMsg (name : String) : String :=
  "Error processing repo " ++ name

-- The `while (hasMoreCommits)` pagination loop for one repository.
-- `nf page` is the response to the page-`page` request.  Results are the
-- final bucket list, the pages requested (in order), and the console log
-- of warnings/errors.  The loop body: on a 2xx response count the page and
-- continue iff it held exactly 100 items and the next page number is ≤ 5;
-- on 409/404 stop silently; on any other non-2xx stop with a warning; a
-- thrown exception is caught by the per-repository catch, which logs it.
-- Fuel 5 is exact: the guard `page + 1 ≤ 5` keeps `page + fuel = 6`
-- invariant from the initial call at page 1 (see `loopPagesFuel_fuel_irrel`).
def loopPagesFuel (name : String) (nf : Nat → PageResult) :
    Nat → Nat → List CommitData → List Nat → List String →
    List CommitData × List Nat × List String
  | 0, _, counts, reqs, logs => (counts, reqs, logs)
  | fuel + 1, page, counts, reqs, logs =>
    match nf page with
    | PageResult.ok commits =>
      let counts2 := addPage counts commits
      let reqs2 := reqs ++ [page]
      if commits.length = 100 ∧ page + 1 ≤ 5 then
        loopPagesFuel name nf fuel (page + 1) counts2 reqs2 logs
      else (counts2, reqs2, logs)
    | PageResult.err st =>
      if st = 409 ∨ st = 404 then (counts, reqs ++ [page], logs)
      else (counts, reqs ++ [page], logs ++ [warnMsg name st])
    | PageResult.exn => (counts, reqs ++ [page], logs ++ [exnMsg name])

-- One repository: pagination starts at page 1 with fresh request/log lists.
def processRepo (r : Repo) (nf : Nat → PageResult) (counts : List CommitData) :
    List CommitData × List Nat × List String :=
  loopPagesFuel r.name nf 5 1 counts [] []

-- `for (const repo of reposToProcess)`: sequential, each repository's
-- failures isolated, buckets threaded through.
def runRepos (net : Repo → DateTime → DateTime → Nat → PageResult)
    (since untl : DateTime) :
    List Repo → List CommitData → List (Repo × Nat) → List String →
    List CommitData × List (Repo × Nat) × List String
  | [], counts, reqs, logs => (counts, reqs, logs)
  | r :: rs, counts, reqs, logs =>
    let out := processRepo r (net r since untl) counts
    runRepos net since untl rs out.1
      (reqs ++ out.2.1.map fun p => (r, p)) (logs ++ out.2.2)

-- `new Date(year, 0, 1)` and `new Date(year, 11, 31, 23, 59, 59)`.
def sinceDate (year : Nat) : DateTime := ⟨year, 0, 1, 0, 0, 0⟩

def untilRawDate (year : Nat) : DateTime := ⟨year, 11, 31, 23, 59, 59⟩

-- `if (year === currentYear && new Date(until) > now) until = now.toISOString()`
-- where `currentYear = now.getFullYear()`.
def untilDate (year : Nat) (now : DateTime) : DateTime :=
  if year = now.year ∧ now.key < (untilRawDate year).key then now
  else untilRawDate year

-- The component state fields the aggregation touches.
structure UIState where
  commitData : List CommitData
  showChart : Bool
  error : String
  loading : Bool
  repos : List Repo
  years : List Nat
deriving DecidableEq, Repr

-- `fetchCommits(year, customRepos)`: the final state once the async function
-- has completed, plus every commit-page request issued (repository, page) and
-- the console log.  An empty repository list returns at once, leaving the
-- state untouched.  Otherwise the first 25 repositories are processed; the
-- outer try/catch never fires (nothing outside the per-repository try can
-- throw), so the run always ends with the fresh buckets, `showChart = true`,
-- `error = ""` and `loading = false`.
def fetchCommits (net : Repo → DateTime → DateTime → Nat → PageResult)
    (year : Nat) (now : DateTime) (customRepos : List Repo) (s : UIState) :
    UIState × List (Repo × Nat) × List String :=
  if customRepos.length = 0 then (s, [], [])
  else
    let reposToProcess := customRepos.take 25
    let out := runRepos net (sinceDate year) (untilDate year now)
      reposToProcess initialMonthly [] []
    ({ s with commitData := out.1, showChart := true, error := "",
              loading := false },
     out.2.1, out.2.2)

-- Setup phase: responses of `GET /users/u` and `GET /users/u/repos`.
inductive UserResp where
  | ok (createdYear : Nat)
  | err (status : Nat)
deriving DecidableEq, Repr

inductive ReposResp where
  | ok (repos : List Repo)
  | err (status : Nat)
deriving DecidableEq, Repr

-- Error message chosen for a non-ok user-profile response (source order:
-- 404, then 403, then 401, then the generic message).
def userErrorMsg (status : Nat) : String :=
  if status = 404 then "User not found"
  else if status = 403 then "API rate limit exceeded or authentication issue"
  else if status = 401 then "Invalid GitHub token. Check your configuration."
  else "GitHub API error: " ++ toString status

def reposErrorMsg (status : Nat) : String :=
  "Failed to fetch repositories: " ++ toString status

-- `Array.from(\x7blength: currentYear - createdYear + 1\x7d, (_, i) => createdYear + i).reverse()`.
def yearRange (createdYear currentYear : Nat) : List Nat :=
  ((List.range ((currentYear : Int) - createdYear + 1).toNat).map
    fun i => createdYear + i).reverse

-- `fetchReposAndYears`: final state plus commit-page requests issued and the
-- console log.  A thrown setup error is caught at the bottom, which stores
-- the message and clears `loading`; no commit request is made on that path.
def fetchReposAndYears (username : String) (uresp : UserResp)
    (rresp : ReposResp) (net : Repo → DateTime → DateTime → Nat → PageResult)
    (now : DateTime) (s : UIState) :
    UIState × List (Repo × Nat) × List String :=
  if username = "" then
    ({ s with error := "Please enter a GitHub username" }, [], [])
  else
    let s1 := { s with loading := true, error := "", commitData := [],
                       repos := [], years := [], showChart := false }
    match uresp with
    | UserResp.err st =>
      ({ s1 with error := userErrorMsg st, loading := false }, [], [])
    | UserResp.ok createdYear =>
      let s2 := { s1 with years := yearRange createdYear now.year }
      match rresp with
      | ReposResp.err st =>
        ({ s2 with error := reposErrorMsg st, loading := false }, [], [])
      | ReposResp.ok reposData =>
        let s3 := { s2 with repos := reposData }
        if reposData.length > 0 then
          fetchCommits net now.year now reposData s3
        else
          ({ s3 with loading := false,
                     error := "No repositories found for this user" }, [], [])

-- Derived observations used by the claims.

def totalCommits (cs : List CommitData) : Nat :=
  (cs.map fun d => d.commits).sum

def commitsAt (cs : List CommitData) (i : Nat) : Nat :=
  ((cs[i]?).map fun d => d.commits).getD 0

def labelAt (cs : List CommitData) (i : Nat) : Option String :=
  (cs[i]?).map fun d => d.month

def countMonth (l : List Commit) (i : Nat) : Nat :=
  l.countP fun c => c.authoredMonth.val == i

-- `!commitData.every((d) => d.commits === 0)`: whether any bucket is non-zero
-- (the render shows the chart rather than "No commits found" exactly then).
def hasNonZero (cs : List CommitData) : Bool :=
  !(cs.all fun d => d.commits == 0)

-- `commitData.reduce((max, data) => data.commits > max.commits ? data : max,
--  commitData[0])`: the record whose `.month` is displayed as most active.
def maxStep (mx d : CommitData) : CommitData :=
  if d.commits > mx.commits then d else mx

def mostActiveEntry (cs : List CommitData) : CommitData :=
  cs.foldl maxStep (cs.headD ⟨"", 0⟩)

-- Bucket-update algebra.

theorem bumpMonth_length (cs : List CommitData) (j : Nat) :
    (bumpMonth cs j).length = cs.length := by
  induction cs generalizing j with
  | nil => rfl
  | cons d ds ih =>
    cases j with
    | zero => rfl
    | succ j => simpa [bumpMonth] using ih j

theorem bumpMonth_getElem? (cs : List CommitData) (j i : Nat) :
    (bumpMonth cs j)[i]? =
      if i = j then (cs[i]?).map (fun d => { d with commits := d.commits + 1 })
      else cs[i]? := by
  induction cs generalizing i j with
  | nil => simp [bumpMonth]
  | cons d ds ih =>
    cases j with
    | zero =>
      cases i with
      | zero => simp [bumpMonth]
      | succ i => simp [bumpMonth]
    | succ j =>
      cases i with
      | zero => simp [bumpMonth]
      | succ i => simpa [bumpMonth] using ih j i

theorem labelAt_bumpMonth (cs : List CommitData) (j i : Nat) :
    labelAt (bumpMonth cs j) i = labelAt cs i := by
  by_cases h : i = j
  · subst h
    simp [labelAt, bumpMonth_getElem?]
    cases cs[i]? <;> rfl
  · simp [labelAt, bumpMonth_getElem?, h]

theorem commitsAt_bumpMonth (cs : List CommitData) (j i : Nat)
    (hj : j < cs.length) :
    commitsAt (bumpMonth cs j) i =
      if i = j then commitsAt cs i + 1 else commitsAt cs i := by
  by_cases h : i = j
  · subst h
    have hsome : cs[i]? = some cs[i] := List.getElem?_eq_getElem hj
    simp [commitsAt, bumpMonth_getElem?, hsome]
  · simp [commitsAt, bumpMonth_getElem?, h]

theorem totalCommits_bumpMonth (cs : List CommitData) (j : Nat)
    (hj : j < cs.length) :
    totalCommits (bumpMonth cs j) = totalCommits cs + 1 := by
  induction cs generalizing j with
  | nil => simp at hj
  | cons d ds ih =>
    cases j with
    | zero => simp [bumpMonth, totalCommits]; omega
    | succ j =>
      have hj2 : j < ds.length := by simpa using hj
      have := ih j hj2
      simp [bumpMonth, totalCommits] at this ⊢
      omega

theorem addPage_length (counts : List CommitData) (l : List Commit) :
    (addPage counts l).length = counts.length := by
  induction l generalizing counts with
  | nil => rfl
  | cons c l ih =>
    simp [addPage] at ih ⊢
    rw [ih, bumpMonth_length]

theorem labelAt_addPage (counts : List CommitData) (l : List Commit) (i : Nat) :
    labelAt (addPage counts l) i = labelAt counts i := by
  induction l generalizing counts with
  | nil => rfl
  | cons c l ih =>
    simp only [addPage, List.foldl_cons] at ih ⊢
    rw [ih, labelAt_bumpMonth]

theorem commitsAt_addPage (counts : List CommitData) (l : List Commit) (i : Nat)
    (hlen : counts.length = 12) :
    commitsAt (addPage counts l) i = commitsAt counts i + countMonth l i := by
  induction l generalizing counts with
  | nil => simp [addPage, countMonth]
  | cons c l ih =>
    have hmonth : c.authoredMonth.val < counts.length := by
      rw [hlen]; exact c.authoredMonth.isLt
    have hlen2 : (bumpMonth counts c.authoredMonth.val).length = 12 := by
      rw [bumpMonth_length, hlen]
    simp only [addPage, List.foldl_cons] at ih ⊢
    rw [ih _ hlen2, commitsAt_bumpMonth _ _ _ hmonth]
    by_cases h : c.authoredMonth.val = i
    · simp [countMonth, List.countP_cons, h]
      omega
    · have h2 : ¬ i = c.authoredMonth.val := fun hh => h hh.symm
      simp [countMonth, List.countP_cons, h, h2]

theorem totalCommits_addPage (counts : List CommitData) (l : List Commit)
    (hlen : counts.length = 12) :
    totalCommits (addPage counts l) = totalCommits counts + l.length := by
  induction l generalizing counts with
  | nil => simp [addPage]
  | cons c l ih =>
    have hmonth : c.authoredMonth.val < counts.length := by
      rw [hlen]; exact c.authoredMonth.isLt
    have hlen2 : (bumpMonth counts c.authoredMonth.val).length = 12 := by
      rw [bumpMonth_length, hlen]
    simp only [addPage, List.foldl_cons] at ih ⊢
    rw [ih _ hlen2, totalCommits_bumpMonth _ _ hmonth]
    simp
    omega

-- Pagination-loop invariants.

theorem loopPagesFuel_fuel_irrel (name : String) (nf : Nat → PageResult) :
    ∀ fuel1 fuel2 page counts reqs logs, page ≤ 5 →
      6 - page ≤ fuel1 → 6 - page ≤ fuel2 →
      loopPagesFuel name nf fuel1 page counts reqs logs =
        loopPagesFuel name nf fuel2 page counts reqs logs := by
  intro fuel1
  induction fuel1 with
  | zero => intro fuel2 page counts reqs logs hp h1 h2; omega
  | succ fuel1 ih =>
    intro fuel2 page counts reqs logs hp h1 h2
    cases fuel2 with
    | zero => omega
    | succ fuel2 =>
      simp only [loopPagesFuel]
      cases nf page with
      | ok commits =>
        by_cases hc : commits.length = 100 ∧ page + 1 ≤ 5
        · simp only [if_pos hc]
          exact ih fuel2 (page + 1) _ _ _ (by omega) (by omega) (by omega)
        · simp only [if_neg hc]
      | err st => rfl
      | exn => rfl

theorem loopPagesFuel_counts_length (name : String) (nf : Nat → PageResult) :
    ∀ fuel page counts reqs logs,
      (loopPagesFuel name nf fuel page counts reqs logs).1.length =
        counts.length := by
  intro fuel
  induction fuel with
  | zero => intro page counts reqs logs; rfl
  | succ fuel ih =>
    intro page counts reqs logs
    simp only [loopPagesFuel]
    cases nf page with
    | ok commits =>
      by_cases hc : commits.length = 100 ∧ page + 1 ≤ 5
      · simp only [if_pos hc]
        rw [ih, addPage_length]
      · simp only [if_neg hc, addPage_length]
    | err st =>
      by_cases hc : st = 409 ∨ st = 404 <;> simp [hc]
    | exn => rfl

theorem loopPagesFuel_labelAt (name : String) (nf : Nat → PageResult) :
    ∀ fuel page counts reqs logs i,
      labelAt (loopPagesFuel name nf fuel page counts reqs logs).1 i =
        labelAt counts i := by
  intro fuel
  induction fuel with
  | zero => intro page counts reqs logs i; rfl
  | succ fuel ih =>
    intro page counts reqs logs i
    simp only [loopPagesFuel]
    cases nf page with
    | ok commits =>
      by_cases hc : commits.length = 100 ∧ page + 1 ≤ 5
      · simp only [if_pos hc]
        rw [ih, labelAt_addPage]
      · simp only [if_neg hc, labelAt_addPage]
    | err st =>
      by_cases hc : st = 409 ∨ st = 404 <;> simp [hc]
    | exn => rfl

theorem loopPagesFuel_total_le (name : String) (nf : Nat → PageResult)
    (h100 : ∀ p l, nf p = PageResult.ok l → l.length ≤ 100) :
    ∀ fuel page counts reqs logs, counts.length = 12 →
      totalCommits (loopPagesFuel name nf fuel page counts reqs logs).1 ≤
        totalCommits counts + fuel * 100 := by
  intro fuel
  induction fuel with
  | zero => intro page counts reqs logs hlen; simp [loopPagesFuel]
  | succ fuel ih =>
    intro page counts reqs logs hlen
    simp only [loopPagesFuel]
    cases hnf : nf page with
    | ok commits =>
      have hle : commits.length ≤ 100 := h100 page commits hnf
      have htot : totalCommits (addPage counts commits) =
          totalCommits counts + commits.length := totalCommits_addPage _ _ hlen
      have hlen2 : (addPage counts commits).length = 12 := by
        rw [addPage_length, hlen]
      by_cases hc : commits.length = 100 ∧ page + 1 ≤ 5
      · simp only [if_pos hc]
        have := ih (page + 1) (addPage counts commits) (reqs ++ [page]) logs hlen2
        omega
      · simp only [if_neg hc]
        omega
    | err st =>
      by_cases hc : st = 409 ∨ st = 404 <;> simp [hc]
    | exn => simp

theorem loopPagesFuel_reqs_le (name : String) (nf : Nat → PageResult) :
    ∀ fuel page counts reqs logs,
      (loopPagesFuel name nf fuel page counts reqs logs).2.1.length ≤
        reqs.length + fuel := by
  intro fuel
  induction fuel with
  | zero => intro page counts reqs logs; simp [loopPagesFuel]
  | succ fuel ih =>
    intro page counts reqs logs
    simp only [loopPagesFuel]
    cases nf page with
    | ok commits =>
      by_cases hc : commits.length = 100 ∧ page + 1 ≤ 5
      · simp only [if_pos hc]
        have := ih (page + 1) (addPage counts commits) (reqs ++ [page]) logs
        simp at this
        omega
      · simp only [if_neg hc]
        simp
    | err st =>
      by_cases hc : st = 409 ∨ st = 404 <;> simp [hc]
    | exn => simp

-- Repository-fold invariants.

theorem runRepos_counts_length (net : Repo → DateTime → DateTime → Nat → PageResult)
    (since untl : DateTime) :
    ∀ rs counts reqs logs,
      (runRepos net since untl rs counts reqs logs).1.length = counts.length := by
  intro rs
  induction rs with
  | nil => intro counts reqs logs; rfl
  | cons r rs ih =>
    intro counts reqs logs
    simp only [runRepos]
    rw [ih]
    exact loopPagesFuel_counts_length _ _ _ _ _ _ _

theorem runRepos_labelAt (net : Repo → DateTime → DateTime → Nat → PageResult)
    (since untl : DateTime) :
    ∀ rs counts reqs logs i,
      labelAt (runRepos net since untl rs counts reqs logs).1 i =
        labelAt counts i := by
  intro rs
  induction rs with
  | nil => intro counts reqs logs i; rfl
  | cons r rs ih =>
    intro counts reqs logs i
    simp only [runRepos]
    rw [ih]
    exact loopPagesFuel_labelAt _ _ _ _ _ _ _ _

theorem runRepos_counts_acc (net : Repo → DateTime → DateTime → Nat → PageResult)
    (since untl : DateTime) :
    ∀ rs counts reqs logs,
      (runRepos net since untl rs counts reqs logs).1 =
        (runRepos net since untl rs counts [] []).1 := by
  intro rs
  induction rs with
  | nil => intro counts reqs logs; rfl
  | cons r rs ih =>
    intro counts reqs logs
    simp only [runRepos]
    rw [ih]
    exact (ih _ _ _).symm

theorem runRepos_total_le (net : Repo → DateTime → DateTime → Nat → PageResult)
    (since untl : DateTime)
    (h100 : ∀ r p l, net r since untl p = PageResult.ok l → l.length ≤ 100) :
    ∀ rs counts reqs logs, counts.length = 12 →
      totalCommits (runRepos net since untl rs counts reqs logs).1 ≤
        totalCommits counts + rs.length * 500 := by
  intro rs
  induction rs with
  | nil => intro counts reqs logs hlen; simp [runRepos]
  | cons r rs ih =>
    intro counts reqs logs hlen
    simp only [runRepos]
    have hloop : totalCommits (processRepo r (net r since untl) counts).1 ≤
        totalCommits counts + 500 := by
      have := loopPagesFuel_total_le r.name (net r since untl)
        (fun p l h => h100 r p l h) 5 1 counts [] [] hlen
      simpa [processRepo] using this
    have hlen2 : (processRepo r (net r since untl) counts).1.length = 12 := by
      unfold processRepo
      rw [loopPagesFuel_counts_length, hlen]
    have := ih ((processRepo r (net r since untl) counts).1)
      (reqs ++ ((processRepo r (net r since untl) counts).2.1.map fun p => (r, p)))
      (logs ++ (processRepo r (net r since untl) counts).2.2) hlen2
    simp only [List.length_cons]
    omega

theorem runRepos_reqs_mem (net : Repo → DateTime → DateTime → Nat → PageResult)
    (since untl : DateTime) :
    ∀ rs counts reqs logs q,
      q ∈ (runRepos net since untl rs counts reqs logs).2.1 →
      q ∈ reqs ∨ q.1 ∈ rs := by
  intro rs
  induction rs with
  | nil => intro counts reqs logs q hq; exact Or.inl hq
  | cons r rs ih =>
    intro counts reqs logs q hq
    simp only [runRepos] at hq
    rcases ih _ _ _ q hq with h | h
    · rcases List.mem_append.mp h with h2 | h2
      · exact Or.inl h2
      · rcases List.mem_map.mp h2 with ⟨p, _, hp⟩
        right
        rw [← hp]
        exact List.mem_cons_self r rs
    · exact Or.inr (List.mem_cons_of_mem r h)

-- Date-window facts.

theorem untilRawDate_key_le_now (year : Nat) (now : DateTime)
    (hwf : now.wf) (hy : year < now.year) :
    (untilRawDate year).key ≤ now.key := by
  obtain ⟨h1, h2, h3, h4, h5⟩ := hwf
  simp only [untilRawDate, DateTime.key]
  omega

-- Facts about the fresh bucket list.

theorem initialMonthly_length : initialMonthly.length = 12 := by decide

theorem totalCommits_initialMonthly : totalCommits initialMonthly = 0 := by
  decide

theorem commitsAt_initialMonthly (i : Nat) : commitsAt initialMonthly i = 0 := by
  by_cases h : i < 12
  · interval_cases i <;> decide
  · simp only [commitsAt]
    rw [List.getElem?_eq_none]
    · rfl
    · rw [initialMonthly_length]; omega

theorem labelAt_initialMonthly (i : Nat) (h : i < 12) :
    labelAt initialMonthly i = some (monthName i) := by
  interval_cases i <;> decide

theorem hasNonZero_iff (cs : List CommitData) :
    hasNonZero cs = true ↔ ∃ d ∈ cs, d.commits ≠ 0 := by
  simp [hasNonZero, List.all_eq_true]

-- The render-time reduce keeps the accumulator unless a strictly greater
-- count appears, so it lands on the earliest maximal element.

theorem foldl_maxStep_spec :
    ∀ (l : List CommitData) (acc : CommitData),
      (l.foldl maxStep acc = acc ∧ ∀ x ∈ l, x.commits ≤ acc.commits) ∨
      (∃ pre post, l = pre ++ (l.foldl maxStep acc) :: post ∧
        acc.commits < (l.foldl maxStep acc).commits ∧
        (∀ x ∈ pre, x.commits < (l.foldl maxStep acc).commits) ∧
        (∀ x ∈ post, x.commits ≤ (l.foldl maxStep acc).commits)) := by
  intro l
  induction l with
  | nil => intro acc; left; exact ⟨rfl, by simp⟩
  | cons d ds ih =>
    intro acc
    simp only [List.foldl_cons]
    by_cases hd : d.commits > acc.commits
    · have hstep : maxStep acc d = d := by simp [maxStep, hd]
      rw [hstep]
      rcases ih d with ⟨heq, hle⟩ | ⟨pre, post, hsplit, hacc, hpre, hpost⟩
      · right
        rw [heq]
        exact ⟨[], ds, by simp, hd, by simp, hle⟩
      · right
        refine ⟨d :: pre, post, ?_, by omega, ?_, hpost⟩
        · rw [List.cons_append, ← hsplit]
        · intro x hx
          rcases List.mem_cons.mp hx with h | h
          · subst h; exact hacc
          · exact hpre x h
    · have hstep : maxStep acc d = acc := by simp [maxStep, hd]
      rw [hstep]
      rcases ih acc with ⟨heq, hle⟩ | ⟨pre, post, hsplit, hacc, hpre, hpost⟩
      · left
        refine ⟨heq, ?_⟩
        intro x hx
        rcases List.mem_cons.mp hx with h | h
        · subst h; omega
        · exact hle x h
      · right
        refine ⟨d :: pre, post, ?_, hacc, ?_, hpost⟩
        · rw [List.cons_append, ← hsplit]
        · intro x hx
          rcases List.mem_cons.mp hx with h | h
          · subst h; omega
          · exact hpre x h

-- Concrete fixtures used by witnesses and counterexamples.

def wState : UIState :=
  { commitData := [], showChart := false, error := "", loading := false,
    repos := [], years := [] }

def wRepo : Repo := { id := 1, name := "alpha", html_url := "u" }

def w1l1 : List Commit := List.replicate 100 ⟨0⟩

def w1l2 : List Commit := List.replicate 100 ⟨5⟩

def w1l3 : List Commit := List.replicate 30 ⟨11⟩

def w1nf : Nat → PageResult := fun p =>
  if p = 1 then PageResult.ok w1l1
  else if p = 2 then PageResult.ok w1l2
  else if p = 3 then PageResult.ok w1l3
  else PageResult.err 404

/-- C1: pages are requested sequentially starting at page 1 and pagination
stops exactly when a page returns fewer than 100 items; for a repository
whose pages return 100, 100 and 30 items, exactly pages 1, 2, 3 are fetched
and 230 commits land in the buckets, each in its authored month's bucket. -/
theorem claim_c1_pagination (name : String) (nf : Nat → PageResult)
    (l1 l2 l3 : List Commit)
    (h1 : l1.length = 100) (h2 : l2.length = 100) (h3 : l3.length = 30)
    (n1 : nf 1 = PageResult.ok l1) (n2 : nf 2 = PageResult.ok l2)
    (n3 : nf 3 = PageResult.ok l3) :
    (loopPagesFuel name nf 5 1 initialMonthly [] []).2.1 = [1, 2, 3] ∧
    totalCommits (loopPagesFuel name nf 5 1 initialMonthly [] []).1 = 230 ∧
    (∀ i, commitsAt (loopPagesFuel name nf 5 1 initialMonthly [] []).1 i =
      countMonth (l1 ++ l2 ++ l3) i) ∧
    (∀ nf2 page l counts reqs logs fuel, nf2 page = PageResult.ok l →
      l.length < 100 →
      loopPagesFuel name nf2 (fuel + 1) page counts reqs logs =
        (addPage counts l, reqs ++ [page], logs)) ∧
    (∀ nf2 page l counts reqs logs fuel, nf2 page = PageResult.ok l →
      l.length = 100 → page + 1 ≤ 5 →
      loopPagesFuel name nf2 (fuel + 1) page counts reqs logs =
        loopPagesFuel name nf2 fuel (page + 1) (addPage counts l)
          (reqs ++ [page]) logs) := by
  have e0 : initialMonthly.length = 12 := initialMonthly_length
  have e1 : (addPage initialMonthly l1).length = 12 := by
    rw [addPage_length, e0]
  have e2 : (addPage (addPage initialMonthly l1) l2).length = 12 := by
    rw [addPage_length, e1]
  have hout : loopPagesFuel name nf 5 1 initialMonthly [] [] =
      (addPage (addPage (addPage initialMonthly l1) l2) l3, [1, 2, 3], []) := by
    simp [loopPagesFuel, n1, n2, n3, h1, h2, h3]
  refine ⟨by rw [hout], ?_, ?_, ?_, ?_⟩
  · rw [hout]
    simp only
    rw [totalCommits_addPage _ _ e2, totalCommits_addPage _ _ e1,
      totalCommits_addPage _ _ e0, totalCommits_initialMonthly, h1, h2, h3]
  · intro i
    rw [hout]
    simp only
    rw [commitsAt_addPage _ _ _ e2, commitsAt_addPage _ _ _ e1,
      commitsAt_addPage _ _ _ e0, commitsAt_initialMonthly]
    simp only [countMonth, List.countP_append]
    omega
  · intro nf2 page l counts reqs logs fuel hok hlt
    have hne : l.length ≠ 100 := by omega
    simp [loopPagesFuel, hok, hne]
  · intro nf2 page l counts reqs logs fuel hok hlen hpage
    simp [loopPagesFuel, hok, hlen, hpage]

/-- C1 witness: a concrete repository whose three pages hold 100 January,
100 June and 30 December commits. -/
theorem claim_c1_pagination_witness :
    (loopPagesFuel "alpha" w1nf 5 1 initialMonthly [] []).2.1 = [1, 2, 3] ∧
    totalCommits (loopPagesFuel "alpha" w1nf 5 1 initialMonthly [] []).1 = 230 ∧
    commitsAt (loopPagesFuel "alpha" w1nf 5 1 initialMonthly [] []).1 5 =
      countMonth (w1l1 ++ w1l2 ++ w1l3) 5 := by
  have h := claim_c1_pagination "alpha" w1nf w1l1 w1l2 w1l3
    (by decide) (by decide) (by decide) rfl rfl rfl
  exact ⟨h.1, h.2.1, h.2.2.1 5⟩

/-- C3 counterexample: invoked on an empty repository list, the aggregation
does not produce a 12-bucket result — it returns with the previous state's
commit data (here empty) untouched; the no-network-call and no-error parts
do hold. -/
theorem claim_c3_counterexample :
    (fetchCommits (fun _ _ _ _ => PageResult.exn) 2024 ⟨2024, 0, 1, 0, 0, 0⟩
        [] wState).1.commitData.length ≠ 12 ∧
    (fetchCommits (fun _ _ _ _ => PageResult.exn) 2024 ⟨2024, 0, 1, 0, 0, 0⟩
        [] wState).2.1 = [] ∧
    (fetchCommits (fun _ _ _ _ => PageResult.exn) 2024 ⟨2024, 0, 1, 0, 0, 0⟩
        [] wState).1.error = "" := by
  decide

/-- C3 (amended): invoked with an empty repository list, the aggregation
returns immediately — the UI state is left completely unchanged (so no fresh
12-bucket result is produced), no network request is issued, and no error is
reported. -/
theorem claim_c3_amended (net : Repo → DateTime → DateTime → Nat → PageResult)
    (year : Nat) (now : DateTime) (s : UIState) :
    fetchCommits net year now [] s = (s, [], []) := rfl

/-- C4 counterexample: for a target year one past the current year the upper
window bound lies in the future, yet the bound passed on is not clamped to
the current instant (the code clamps only when the target year equals the
current year). -/
theorem claim_c4_counterexample :
    (⟨2025, 5, 15, 12, 0, 0⟩ : DateTime).key < (untilRawDate 2026).key ∧
    untilDate 2026 ⟨2025, 5, 15, 12, 0, 0⟩ ≠ ⟨2025, 5, 15, 12, 0, 0⟩ := by
  decide

/-- C4 (amended): for every target year not exceeding the current year, the
window is [Jan 1 00:00:00, Dec 31 23:59:59] of that year; whenever its upper
bound lies in the future relative to now, the bound actually passed to the
commit query is clamped to now, and in every case that bound never exceeds
the current instant. -/
theorem claim_c4_amended (year : Nat) (now : DateTime)
    (hwf : now.wf) (hy : year ≤ now.year) :
    sinceDate year = ⟨year, 0, 1, 0, 0, 0⟩ ∧
    untilRawDate year = ⟨year, 11, 31, 23, 59, 59⟩ ∧
    (now.key < (untilRawDate year).key → untilDate year now = now) ∧
    (untilDate year now).key ≤ now.key := by
  refine ⟨rfl, rfl, ?_, ?_⟩
  · intro hlt
    have hyear : year = now.year := by
      by_contra hne
      have hlt2 : year < now.year := lt_of_le_of_ne hy hne
      have := untilRawDate_key_le_now year now hwf hlt2
      omega
    unfold untilDate
    rw [if_pos ⟨hyear, hlt⟩]
  · unfold untilDate
    by_cases hc : year = now.year ∧ now.key < (untilRawDate year).key
    · rw [if_pos hc]
    · rw [if_neg hc]
      by_cases hyear : year = now.year
      · have hnlt : ¬ now.key < (untilRawDate year).key := fun h => hc ⟨hyear, h⟩
        omega
      · exact untilRawDate_key_le_now year now hwf (lt_of_le_of_ne hy hyear)

/-- C4 witness: the current year with a mid-year current instant. -/
theorem claim_c4_witness :
    ((⟨2025, 9, 10, 0, 0, 0⟩ : DateTime).key < (untilRawDate 2025).key →
      untilDate 2025 ⟨2025, 9, 10, 0, 0, 0⟩ = ⟨2025, 9, 10, 0, 0, 0⟩) ∧
    (untilDate 2025 ⟨2025, 9, 10, 0, 0, 0⟩).key ≤
      (⟨2025, 9, 10, 0, 0, 0⟩ : DateTime).key := by
  have h := claim_c4_amended 2025 ⟨2025, 9, 10, 0, 0, 0⟩ (by decide) (by decide)
  exact ⟨h.2.2.1, h.2.2.2⟩

/-- C2: a non-success commit-page response ends pagination for that
repository only and raises no error — 404/409 silently, any other non-2xx
with one logged warning; a thrown exception is caught and logged.  With such
a repository first in the list the aggregation still completes: no visible
error, the chart is shown, and the buckets equal those computed from the
remaining repositories alone (the failing repository contributes zero). -/
theorem claim_c2_failure_isolation :
    (∀ name nf counts reqs logs st, nf 1 = PageResult.err st →
      loopPagesFuel name nf 5 1 counts reqs logs =
        (counts, reqs ++ [1],
         logs ++ if st = 409 ∨ st = 404 then [] else [warnMsg name st])) ∧
    (∀ name nf counts reqs logs, nf 1 = PageResult.exn →
      loopPagesFuel name nf 5 1 counts reqs logs =
        (counts, reqs ++ [1], logs ++ [exnMsg name])) ∧
    (∀ net year now r rest s,
      net r (sinceDate year) (untilDate year now) 1 = PageResult.err 404 →
      (fetchCommits net year now (r :: rest) s).1.error = "" ∧
      (fetchCommits net year now (r :: rest) s).1.showChart = true ∧
      (fetchCommits net year now (r :: rest) s).1.commitData =
        (runRepos net (sinceDate year) (untilDate year now) (rest.take 24)
          initialMonthly [] []).1) := by
  refine ⟨?_, ?_, ?_⟩
  · intro name nf counts reqs logs st hnf
    by_cases hc : st = 409 ∨ st = 404 <;> simp [loopPagesFuel, hnf, hc]
  · intro name nf counts reqs logs hnf
    simp [loopPagesFuel, hnf]
  · intro net year now r rest s hnf
    have hlen : ¬ (r :: rest).length = 0 := by simp
    have hfirst : processRepo r (net r (sinceDate year) (untilDate year now))
        initialMonthly = (initialMonthly, [1], []) := by
      unfold processRepo
      simp [loopPagesFuel, hnf]
    constructor
    · simp [fetchCommits, hlen]
    constructor
    · simp [fetchCommits, hlen]
    · simp only [fetchCommits, if_neg hlen, List.take_succ_cons]
      rw [runRepos, hfirst]
      exact runRepos_counts_acc _ _ _ _ _ _ _

/-- C2 witness: one repository whose first page answers 404, followed by
nothing; the run ends cleanly with that repository contributing nothing. -/
theorem claim_c2_failure_isolation_witness :
    (fetchCommits (fun _ _ _ _ => PageResult.err 404) 2024
        ⟨2024, 5, 1, 0, 0, 0⟩ [wRepo] wState).1.error = "" ∧
    (fetchCommits (fun _ _ _ _ => PageResult.err 404) 2024
        ⟨2024, 5, 1, 0, 0, 0⟩ [wRepo] wState).1.showChart = true ∧
    (fetchCommits (fun _ _ _ _ => PageResult.err 404) 2024
        ⟨2024, 5, 1, 0, 0, 0⟩ [wRepo] wState).1.commitData =
      (runRepos (fun _ _ _ _ => PageResult.err 404) (sinceDate 2024)
        (untilDate 2024 ⟨2024, 5, 1, 0, 0, 0⟩) (([] : List Repo).take 24)
        initialMonthly [] []).1 :=
  claim_c2_failure_isolation.2.2 (fun _ _ _ _ => PageResult.err 404) 2024
    ⟨2024, 5, 1, 0, 0, 0⟩ wRepo [] wState rfl

/-- C5: the pagination loop for one repository always terminates after at
most 5 page requests, and — at 100 items per page — adds at most 500 commits
to the buckets. -/
theorem claim_c5_page_cap (name : String) (nf : Nat → PageResult)
    (counts : List CommitData) (hlen : counts.length = 12)
    (h100 : ∀ p l, nf p = PageResult.ok l → l.length ≤ 100) :
    (loopPagesFuel name nf 5 1 counts [] []).2.1.length ≤ 5 ∧
    totalCommits (loopPagesFuel name nf 5 1 counts [] []).1 ≤
      totalCommits counts + 500 := by
  constructor
  · have := loopPagesFuel_reqs_le name nf 5 1 counts [] []
    simpa using this
  · have := loopPagesFuel_total_le name nf h100 5 1 counts [] [] hlen
    simpa using this

/-- C5 witness: a repository with unbounded history (every page full) is cut
off at 5 pages and 500 commits. -/
theorem claim_c5_page_cap_witness :
    (loopPagesFuel "alpha" (fun _ => PageResult.ok w1l1) 5 1
      initialMonthly [] []).2.1.length ≤ 5 ∧
    totalCommits (loopPagesFuel "alpha" (fun _ => PageResult.ok w1l1) 5 1
      initialMonthly [] []).1 ≤ totalCommits initialMonthly + 500 :=
  claim_c5_page_cap "alpha" (fun _ => PageResult.ok w1l1) initialMonthly
    (by decide)
    (fun p l h => by
      injection h with h2
      rw [← h2]
      decide)

/-- C6: commits are queried only for the first 25 repositories in input
order — the whole run behaves exactly as if called on `repos.take 25`, every
request names one of the first 25 repositories, and the extra repositories
are skipped without an error. -/
theorem claim_c6_repo_cap (net : Repo → DateTime → DateTime → Nat → PageResult)
    (year : Nat) (now : DateTime) (repos : List Repo) (s : UIState) :
    fetchCommits net year now repos s =
      fetchCommits net year now (repos.take 25) s ∧
    (∀ q ∈ (fetchCommits net year now repos s).2.1, q.1 ∈ repos.take 25) ∧
    (repos ≠ [] → (fetchCommits net year now repos s).1.error = "") := by
  refine ⟨?_, ?_, ?_⟩
  · by_cases h : repos.length = 0
    · have hnil : repos = [] := List.length_eq_zero.mp h
      subst hnil
      rfl
    · have h25 : ¬ (repos.take 25).length = 0 := by
        rw [List.length_take]
        omega
      simp only [fetchCommits, if_neg h, if_neg h25, List.take_take, min_self]
  · intro q hq
    by_cases h : repos.length = 0
    · simp [fetchCommits, h] at hq
    · simp only [fetchCommits, if_neg h] at hq
      rcases runRepos_reqs_mem net (sinceDate year) (untilDate year now)
        (repos.take 25) initialMonthly [] [] q hq with hmem | hmem
      · simp at hmem
      · exact hmem
  · intro hne
    have h : ¬ repos.length = 0 := by
      simpa using fun hh => hne (List.length_eq_zero.mp hh)
    simp [fetchCommits, h]

/-- C6 witness: a single-repository run; its one request names that
repository, and no error is reported. -/
theorem claim_c6_repo_cap_witness :
    (wRepo, 1).1 ∈ ([wRepo] : List Repo).take 25 ∧
    (fetchCommits (fun _ _ _ _ => PageResult.err 404) 2024
      ⟨2024, 5, 1, 0, 0, 0⟩ [wRepo] wState).1.error = "" := by
  have h := claim_c6_repo_cap (fun _ _ _ _ => PageResult.err 404) 2024
    ⟨2024, 5, 1, 0, 0, 0⟩ [wRepo] wState
  exact ⟨h.2.1 (wRepo, 1) (by decide), h.2.2 (by decide)⟩

/-- C7: with at most 100 items per returned page, the bucket sum after any
sequence of processed repositories — hence throughout the run — is bounded
by (repositories processed) × 5 × 100, and the final bucket sum of a run is
bounded by the number of repositories actually processed times 500. -/
theorem claim_c7_sum_bound (net : Repo → DateTime → DateTime → Nat → PageResult)
    (h100 : ∀ r since untl p l,
      net r since untl p = PageResult.ok l → l.length ≤ 100) :
    (∀ since untl rs counts reqs logs, counts.length = 12 →
      totalCommits (runRepos net since untl rs counts reqs logs).1 ≤
        totalCommits counts + rs.length * (5 * 100)) ∧
    (∀ year now repos s,
      totalCommits (fetchCommits net year now repos s).1.commitData ≤
        totalCommits s.commitData + (repos.take 25).length * (5 * 100)) := by
  have hmain : ∀ since untl rs counts reqs logs, counts.length = 12 →
      totalCommits (runRepos net since untl rs counts reqs logs).1 ≤
        totalCommits counts + rs.length * (5 * 100) := by
    intro since untl rs counts reqs logs hlen
    have := runRepos_total_le net since untl
      (fun r p l h => h100 r since untl p l h) rs counts reqs logs hlen
    omega
  refine ⟨hmain, ?_⟩
  intro year now repos s
  by_cases h : repos.length = 0
  · have hnil : repos = [] := List.length_eq_zero.mp h
    subst hnil
    simp [fetchCommits]
  · simp only [fetchCommits, if_neg h]
    have h2 := hmain (sinceDate year) (untilDate year now) (repos.take 25)
      initialMonthly [] [] initialMonthly_length
    rw [totalCommits_initialMonthly] at h2
    omega

/-- C7 witness: a run over one repository answering full pages forever stays
within the 500-commit-per-repository bound. -/
theorem claim_c7_sum_bound_witness :
    totalCommits (fetchCommits (fun _ _ _ _ => PageResult.ok w1l1) 2024
        ⟨2024, 5, 1, 0, 0, 0⟩ [wRepo] wState).1.commitData ≤
      totalCommits wState.commitData +
        (([wRepo] : List Repo).take 25).length * (5 * 100) := by
  have h := claim_c7_sum_bound (fun _ _ _ _ => PageResult.ok w1l1)
    (fun r since untl p l hh => by
      injection hh with h2
      rw [← h2]
      decide)
  exact h.2 2024 ⟨2024, 5, 1, 0, 0, 0⟩ [wRepo] wState

/-- C8: a run over a non-empty repository list always yields a full ordered
12-bucket sequence, bucket i carrying calendar month i's label, with
`showChart` true and no error; the buckets are built fresh for the run
(independent of the previous state), and the boolean the render derives from
them is true exactly when some bucket is non-zero. -/
theorem claim_c8_result_shape
    (net : Repo → DateTime → DateTime → Nat → PageResult)
    (year : Nat) (now : DateTime) (repos : List Repo) (s : UIState)
    (hne : repos ≠ []) :
    (fetchCommits net year now repos s).1.commitData.length = 12 ∧
    (∀ i, i < 12 →
      labelAt (fetchCommits net year now repos s).1.commitData i =
        some (monthName i)) ∧
    (fetchCommits net year now repos s).1.showChart = true ∧
    (fetchCommits net year now repos s).1.error = "" ∧
    (∀ s2, (fetchCommits net year now repos s2).1.commitData =
      (fetchCommits net year now repos s).1.commitData) ∧
    (hasNonZero (fetchCommits net year now repos s).1.commitData = true ↔
      ∃ d ∈ (fetchCommits net year now repos s).1.commitData,
        d.commits ≠ 0) := by
  have h : ¬ repos.length = 0 := by
    simpa using fun hh => hne (List.length_eq_zero.mp hh)
  refine ⟨?_, ?_, ?_, ?_, ?_, hasNonZero_iff _⟩
  · simp only [fetchCommits, if_neg h]
    rw [runRepos_counts_length, initialMonthly_length]
  · intro i hi
    simp only [fetchCommits, if_neg h]
    rw [runRepos_labelAt]
    exact labelAt_initialMonthly i hi
  · simp [fetchCommits, h]
  · simp [fetchCommits, h]
  · intro s2
    simp only [fetchCommits, if_neg h]

/-- C8 witness: a one-repository run whose pages all fail. -/
theorem claim_c8_result_shape_witness :
    (fetchCommits (fun _ _ _ _ => PageResult.err 404) 2024
        ⟨2024, 5, 1, 0, 0, 0⟩ [wRepo] wState).1.commitData.length = 12 ∧
    labelAt (fetchCommits (fun _ _ _ _ => PageResult.err 404) 2024
        ⟨2024, 5, 1, 0, 0, 0⟩ [wRepo] wState).1.commitData 0 =
      some (monthName 0) := by
  have h := claim_c8_result_shape (fun _ _ _ _ => PageResult.err 404) 2024
    ⟨2024, 5, 1, 0, 0, 0⟩ [wRepo] wState (by decide)
  exact ⟨h.1, h.2.1 0 (by decide)⟩

/-- C9: setup-phase errors map to distinct visible messages — on the user
fetch, 404 to the user-not-found message, 401 to the invalid-token message,
403 to the rate-limit message, anything else to the generic API-error
message; a non-2xx on the repository-list fetch to the
failed-to-fetch-repositories message — and in every such case the run halts
with that single error and no commit request is issued. -/
theorem claim_c9_setup_errors (username : String) (hne : username ≠ "")
    (net : Repo → DateTime → DateTime → Nat → PageResult)
    (now : DateTime) (s : UIState) :
    (∀ st rresp,
      (fetchReposAndYears username (UserResp.err st) rresp net now s).1.error =
        userErrorMsg st ∧
      (fetchReposAndYears username (UserResp.err st) rresp net now s).2.1 =
        []) ∧
    userErrorMsg 404 = "User not found" ∧
    userErrorMsg 401 = "Invalid GitHub token. Check your configuration." ∧
    userErrorMsg 403 = "API rate limit exceeded or authentication issue" ∧
    (∀ st, st ≠ 404 → st ≠ 403 → st ≠ 401 →
      userErrorMsg st = "GitHub API error: " ++ toString st) ∧
    (userErrorMsg 404 ≠ userErrorMsg 401 ∧
      userErrorMsg 404 ≠ userErrorMsg 403 ∧
      userErrorMsg 401 ≠ userErrorMsg 403) ∧
    (∀ cy st,
      (fetchReposAndYears username (UserResp.ok cy) (ReposResp.err st)
        net now s).1.error = reposErrorMsg st ∧
      (fetchReposAndYears username (UserResp.ok cy) (ReposResp.err st)
        net now s).2.1 = []) := by
  refine ⟨?_, by decide, by decide, by decide, ?_, by decide, ?_⟩
  · intro st rresp
    constructor <;> simp [fetchReposAndYears, hne]
  · intro st h404 h403 h401
    simp [userErrorMsg, h404, h403, h401]
  · intro cy st
    constructor <;> simp [fetchReposAndYears, hne]

/-- C9 witness: a 404 on the user fetch for a concrete username. -/
theorem claim_c9_setup_errors_witness :
    (fetchReposAndYears "alice" (UserResp.err 404) (ReposResp.err 500)
        (fun _ _ _ _ => PageResult.exn) ⟨2025, 0, 1, 0, 0, 0⟩
        wState).1.error = userErrorMsg 404 ∧
    userErrorMsg 404 = "User not found" ∧
    (fetchReposAndYears "alice" (UserResp.err 404) (ReposResp.err 500)
        (fun _ _ _ _ => PageResult.exn) ⟨2025, 0, 1, 0, 0, 0⟩
        wState).2.1 = [] := by
  have h := claim_c9_setup_errors "alice" (by decide)
    (fun _ _ _ _ => PageResult.exn) ⟨2025, 0, 1, 0, 0, 0⟩ wState
  exact ⟨(h.1 404 (ReposResp.err 500)).1, h.2.1,
    (h.1 404 (ReposResp.err 500)).2⟩

/-- C10: the entry the render reduce picks (whose `.month` is shown as "Most
active month") sits at a position in the bucket list before which every
count is strictly smaller, and no count anywhere exceeds it — i.e. it is the
earliest bucket attaining the maximum, ties broken toward the earlier
month. -/
theorem claim_c10_most_active (c : CommitData) (rest : List CommitData) :
    ∃ pre post,
      c :: rest = pre ++ mostActiveEntry (c :: rest) :: post ∧
      (∀ x ∈ pre, x.commits < (mostActiveEntry (c :: rest)).commits) ∧
      (∀ x ∈ c :: rest,
        x.commits ≤ (mostActiveEntry (c :: rest)).commits) := by
  have hdef : mostActiveEntry (c :: rest) = (c :: rest).foldl maxStep c := rfl
  rw [hdef]
  rcases foldl_maxStep_spec (c :: rest) c with ⟨heq, hle⟩ |
    ⟨pre, post, hsplit, hacc, hpre, hpost⟩
  · refine ⟨[], rest, ?_, by simp, ?_⟩
    · rw [heq]
      rfl
    · intro x hx
      rw [heq]
      exact hle x hx
  · refine ⟨pre, post, hsplit, hpre, ?_⟩
    intro x hx
    rw [hsplit] at hx
    rcases List.mem_append.mp hx with h | h
    · exact le_of_lt (hpre x h)
    · rcases List.mem_cons.mp h with h2 | h2
      · rw [h2]
      · exact hpost x h2

/-- C10 witness: a tie between February and March at count 5 resolves to the
earlier bucket. -/
theorem claim_c10_most_active_witness :
    ∃ pre post,
      (⟨"Jan", 3⟩ : CommitData) :: [⟨"Feb", 5⟩, ⟨"Mar", 5⟩] =
        pre ++ mostActiveEntry (⟨"Jan", 3⟩ :: [⟨"Feb", 5⟩, ⟨"Mar", 5⟩]) :: post ∧
      (∀ x ∈ pre,
        x.commits <
          (mostActiveEntry (⟨"Jan", 3⟩ :: [⟨"Feb", 5⟩, ⟨"Mar", 5⟩])).commits) ∧
      (∀ x ∈ (⟨"Jan", 3⟩ : CommitData) :: [⟨"Feb", 5⟩, ⟨"Mar", 5⟩],
        x.commits ≤
          (mostActiveEntry (⟨"Jan", 3⟩ :: [⟨"Feb", 5⟩, ⟨"Mar", 5⟩])).commits) :=
  claim_c10_most_active ⟨"Jan", 3⟩ [⟨"Feb", 5⟩, ⟨"Mar", 5⟩]

/-- C3 amended witness: the empty-list early return at a concrete state. -/
theorem claim_c3_amended_witness :
    fetchCommits (fun _ _ _ _ => PageResult.exn) 2024 ⟨2024, 0, 1, 0, 0, 0⟩
      [] wState = (wState, [], []) :=
  claim_c3_amended (fun _ _ _ _ => PageResult.exn) 2024 ⟨2024, 0, 1, 0, 0, 0⟩
    wState

end GitHubViewer
